import Mathlib

/-!
Verification of the lawgic-hackathon legal-analysis frontend and its
result-publication contract.

The repository's frontend (`frontend/app/page.tsx`) submits a legal query to a
backend and polls a published result document (`/static/output.json`) until its
content changes; `lib/api.ts` declares the `LegalAnalysisResult` document shape.
This file gives a shallow embedding of that code: JSON values are the inductive
`Json` with a `stringify` function modelling `JSON.stringify`; the browser's
`JSON.parse` and the network are external capabilities, passed in as explicit
parameters (`parse : String → Option Json`, with `none` for a parse exception,
and `FetchResponse` values for each HTTP response the code awaits).

The backend orchestrator (`backend/main.py`) and term extractor
(`backend/term.py`) are not part of the available sources; the definitions for
them below are modelled from the specification and are marked as such in their
doc comments.
-/

set_option linter.unusedVariables false

/-! ## JSON values and `JSON.stringify` -/

mutual

/-- Json models the universe of JSON values the browser's `JSON.parse` can
produce and `JSON.stringify` can serialize (numbers restricted to integers,
which covers every document this system publishes). -/
inductive Json where
  | null : Json
  | bool (b : Bool) : Json
  | num (n : Int) : Json
  | str (s : String) : Json
  | arr (xs : JsonArr) : Json
  | obj (fs : JsonObj) : Json

/-- JsonArr is the list of elements of a JSON array (spelled out as its own
inductive so that recursion over nested values stays structural). -/
inductive JsonArr where
  | nil : JsonArr
  | cons (hd : Json) (tl : JsonArr) : JsonArr

/-- JsonObj is the field list of a JSON object, in insertion order. -/
inductive JsonObj where
  | nil : JsonObj
  | cons (key : String) (val : Json) (tl : JsonObj) : JsonObj

end

/-- JSON string escaping for a single character (backslash and quote). -/
def quoteChar (c : Char) : String :=
  if c = '\\' then "\\\\" else if c = '\"' then "\\\"" else String.singleton c

/-- JSON string literal serialization. -/
def quoteStr (s : String) : String :=
  "\"" ++ String.join (s.toList.map quoteChar) ++ "\""

mutual

/-- Model of `JSON.stringify` on `Json` values. -/
def stringify : Json → String
  | .null => "null"
  | .bool true => "true"
  | .bool false => "false"
  | .num n => toString n
  | .str s => quoteStr s
  | .arr xs => "[" ++ stringifyArr xs ++ "]"
  | .obj fs => "\x7b" ++ stringifyObj fs ++ "\x7d"

/-- Comma-separated serialization of JSON array elements. -/
def stringifyArr : JsonArr → String
  | .nil => ""
  | .cons x .nil => stringify x
  | .cons x (.cons y tl) => stringify x ++ "," ++ stringifyArr (.cons y tl)

/-- Comma-separated serialization of JSON object fields. -/
def stringifyObj : JsonObj → String
  | .nil => ""
  | .cons k v .nil => quoteStr k ++ ":" ++ stringify v
  | .cons k v (.cons k2 v2 tl) =>
      quoteStr k ++ ":" ++ stringify v ++ "," ++ stringifyObj (.cons k2 v2 tl)

end

/-- JavaScript truthiness of the value held by a variable that is either a
parsed JSON value or `null` (the two things `fetchOutputJson` can return). -/
def truthy : Option Json → Bool
  | none => false
  | some .null => false
  | some (.bool b) => b
  | some (.num n) => n != 0
  | some (.str s) => s != ""
  | some (.arr _) => true
  | some (.obj _) => true

/-- Serialization of an `Option Json` variable: `JSON.stringify(null)` is the
string `"null"`, matching how `page.tsx` stringifies a possibly-null output. -/
def stringifyOpt : Option Json → String
  | none => "null"
  | some j => stringify j

/-- Model of JavaScript `String.prototype.trim`: strip leading and trailing
whitespace (defined over the character list so it evaluates by kernel
reduction). -/
def jsTrim (s : String) : String :=
  String.mk (((s.toList.dropWhile Char.isWhitespace).reverse.dropWhile
    Char.isWhitespace).reverse)

/-! ## The fetch path (`fetchOutputJson`, page.tsx lines 22–37) -/

/-- FetchResponse is the observable part of an awaited HTTP response: its `ok`
flag and its body text. -/
structure FetchResponse where
  ok : Bool
  body : String

/-- Embedding of `fetchOutputJson` from `page.tsx`: on a non-ok response return
null; on an empty (after trim) body return null; otherwise `JSON.parse` the
body, returning null when parsing throws. The browser's `JSON.parse` is the
external capability `parse`, with `none` standing for a thrown exception. -/
def fetchOutputJson (parse : String → Option Json) (res : FetchResponse) :
    Option Json :=
  if res.ok then
    if jsTrim res.body = "" then none
    else
      match parse res.body with
      | some data => some data
      | none => none
  else none

/-! ## The polling loop in `handleSubmit` (page.tsx lines 57–76) -/

/-- Change detection used by the polling loop (page.tsx lines 63–66): the new
output must be truthy and its `JSON.stringify` serialization must differ from
the serialization of the pre-submit snapshot. -/
def outputChanged (initialOutput newOutput : Option Json) : Bool :=
  truthy newOutput && (stringifyOpt newOutput != stringifyOpt initialOutput)

/-- PollOutcome records what the polling loop did: the output passed to
`setResult` when a changed output was observed (`none` when the loop exhausted
its tries), how many fetch attempts it made, and how many one-second
`setTimeout` waits it performed. -/
structure PollOutcome where
  found : Option Json
  attempts : Nat
  waits : Nat

/-- One unrolling of the `while (tries < 20)` loop of `handleSubmit`, with
`fuel = 20 - tries` remaining iterations and `tries` indexing which fetch of
the published document this iteration observes. Each iteration fetches once;
if the fetched output is truthy and serializes differently from the pre-submit
snapshot the loop breaks (no wait), otherwise it waits one second and retries. -/
def pollGo (initialOutput : Option Json) (fetches : Nat → Option Json) :
    Nat → Nat → PollOutcome
  | _, 0 => ⟨none, 0, 0⟩
  | tries, fuel + 1 =>
    let newOutput := fetches tries
    if outputChanged initialOutput newOutput then ⟨newOutput, 1, 0⟩
    else
      let r := pollGo initialOutput fetches (tries + 1) fuel
      ⟨r.found, r.attempts + 1, r.waits + 1⟩

/-- The polling loop of `handleSubmit`: `tries` starts at 0 and the loop runs
while `tries < 20`, so it has exactly 20 iterations of fuel. -/
def pollLoop (initialOutput : Option Json) (fetches : Nat → Option Json) :
    PollOutcome :=
  pollGo initialOutput fetches 0 20

/-- Milliseconds slept between polling attempts (`setTimeout(r, 1000)`). -/
def pollDelayMs : Nat := 1000

/-! ## `handleSubmit` and the page state (page.tsx lines 15–76, 186–191) -/

/-- UIState is the React state of the page: the controlled input text, the
displayed result (`none` models the empty-string initial value), and the
`isSubmitted` and `loading` flags. -/
structure UIState where
  inputText : String
  result : Option Json
  isSubmitted : Bool
  loading : Bool

/-- SubmitOutcome is everything observable about one `handleSubmit` run: the
final page state, the body of the POST to `/query` if one was sent, and the
polling loop's attempt and wait counts. -/
structure SubmitOutcome where
  state : UIState
  posted : Option String
  pollAttempts : Nat
  pollWaits : Nat

/-- Embedding of `handleSubmit` from `page.tsx`. If the input text trims to
empty, the handler returns at once: no fetch, no POST, no state change.
Otherwise it sets `loading` and `isSubmitted`, clears the result, snapshots
the published document (`preRes`), POSTs `{ query: inputText }` to `/query`
(the response `postRes` is awaited but discarded by the code, so it does not
appear on the right-hand side), then polls the published document (the i-th
poll observing `pollRes i`) and finally clears `loading`. -/
def handleSubmit (parse : String → Option Json) (st : UIState)
    (preRes : FetchResponse) (postRes : FetchResponse)
    (pollRes : Nat → FetchResponse) : SubmitOutcome :=
  if jsTrim st.inputText = "" then
    ⟨st, none, 0, 0⟩
  else
    let initialOutput := fetchOutputJson parse preRes
    let poll := pollLoop initialOutput (fun i => fetchOutputJson parse (pollRes i))
    ⟨{ st with result := poll.found, isSubmitted := true, loading := false },
     some st.inputText, poll.attempts, poll.waits⟩

/-- The submit button's `disabled` attribute (page.tsx line 190):
`disabled={!inputText.trim()}`. -/
def submitDisabled (inputText : String) : Bool :=
  jsTrim inputText == ""

/-! ## Polling-loop lemmas -/

/-- The loop makes at most `fuel` fetch attempts. -/
theorem pollGo_attempts_le (initialOutput : Option Json)
    (fetches : Nat → Option Json) :
    ∀ (fuel tries : Nat),
      (pollGo initialOutput fetches tries fuel).attempts ≤ fuel := by
  intro fuel
  induction fuel with
  | zero => intro tries; simp [pollGo]
  | succ k ih =>
    intro tries
    simp only [pollGo]
    split
    · simp
    · simpa using ih (tries + 1)

/-- Wait accounting: when the loop exhausts its fuel it waited once after each
attempt; when it breaks on a changed output it waited only between attempts. -/
theorem pollGo_waits (initialOutput : Option Json)
    (fetches : Nat → Option Json) :
    ∀ (fuel tries : Nat),
      ((pollGo initialOutput fetches tries fuel).found = none →
        (pollGo initialOutput fetches tries fuel).waits =
          (pollGo initialOutput fetches tries fuel).attempts) ∧
      (∀ j, (pollGo initialOutput fetches tries fuel).found = some j →
        (pollGo initialOutput fetches tries fuel).waits + 1 =
          (pollGo initialOutput fetches tries fuel).attempts) := by
  intro fuel
  induction fuel with
  | zero => intro tries; simp [pollGo]
  | succ k ih =>
    intro tries
    simp only [pollGo]
    split
    · constructor
      · intro h
        exact absurd h (by
          rename_i hch
          cases hne : fetches tries with
          | none => rw [hne] at hch; simp [outputChanged, truthy] at hch
          | some j => simp [hne])
      · intro j _; rfl
    · constructor
      · intro h
        have := (ih (tries + 1)).1 (by simpa using h)
        simpa using this
      · intro j h
        have := (ih (tries + 1)).2 j (by simpa using h)
        simpa using this

/-- A found output was actually fetched at some try in range, and it passed the
change check against the pre-submit snapshot. -/
theorem pollGo_found_spec (initialOutput : Option Json)
    (fetches : Nat → Option Json) :
    ∀ (fuel tries : Nat) (j : Json),
      (pollGo initialOutput fetches tries fuel).found = some j →
      ∃ i, tries ≤ i ∧ i < tries + fuel ∧ fetches i = some j ∧
        outputChanged initialOutput (fetches i) = true := by
  intro fuel
  induction fuel with
  | zero => intro tries j h; simp [pollGo] at h
  | succ k ih =>
    intro tries j h
    simp only [pollGo] at h
    split at h
    · rename_i hch
      refine ⟨tries, Nat.le_refl _, by omega, ?_, hch⟩
      simpa using h
    · obtain ⟨i, h1, h2, h3, h4⟩ := ih (tries + 1) j (by simpa using h)
      exact ⟨i, by omega, by omega, h3, h4⟩

/-- If no fetch in range passes the change check, the loop exhausts its fuel:
no result, `fuel` attempts, `fuel` waits. -/
theorem pollGo_unchanged (initialOutput : Option Json)
    (fetches : Nat → Option Json) :
    ∀ (fuel tries : Nat),
      (∀ i, tries ≤ i → i < tries + fuel →
        outputChanged initialOutput (fetches i) = false) →
      pollGo initialOutput fetches tries fuel = ⟨none, fuel, fuel⟩ := by
  intro fuel
  induction fuel with
  | zero => intro tries _; simp [pollGo]
  | succ k ih =>
    intro tries h
    simp only [pollGo]
    split
    · rename_i hch
      exact absurd hch (by simp [h tries (Nat.le_refl _) (by omega)])
    · have := ih (tries + 1) (fun i h1 h2 => h i (by omega) (by omega))
      simp [this]

/-! ## Concrete scenario values -/

/-- Concrete published result document A: a small success document shaped like
`LegalAnalysisResult`. -/
def sampleDocA : Json :=
  .obj (.cons "timestamp" (.str "2025-08-02 10:00:00")
    (.cons "status" (.str "success")
      (.cons "analysis" (.obj (.cons "S 21(1) PDPA" (.str "applies") .nil)) .nil)))

/-- Concrete published result document B: same shape as `sampleDocA` but a
later timestamp, so the two serialize differently. -/
def sampleDocB : Json :=
  .obj (.cons "timestamp" (.str "2025-08-02 10:00:07")
    (.cons "status" (.str "success")
      (.cons "analysis" (.obj (.cons "S 21(1) PDPA" (.str "applies") .nil)) .nil)))

/-- Concrete `JSON.parse` capability: body "A" parses to `sampleDocA`, body
"B" to `sampleDocB`, anything else throws. -/
def sampleParse : String → Option Json :=
  fun s => if s = "A" then some sampleDocA else if s = "B" then some sampleDocB else none

/-- Concrete page state with a non-blank query typed in. -/
def sampleState : UIState := ⟨"q", none, false, false⟩

/-- Ok response whose body parses to `sampleDocA`. -/
def respA : FetchResponse := ⟨true, "A"⟩

/-- Ok response whose body parses to `sampleDocB`. -/
def respB : FetchResponse := ⟨true, "B"⟩

/-! ## Claim theorems: the fetch and polling path -/

/-- C2: every read of the published result document through `fetchOutputJson`
yields either a successfully parsed JSON value or null; a non-ok response, an
empty (after trim) body, or an unparseable body all yield null, so malformed
content is never surfaced as a result. -/
theorem C2_fetch_parsed_or_null (parse : String → Option Json)
    (res : FetchResponse) :
    (fetchOutputJson parse res = none ∨
      ∃ j, parse res.body = some j ∧ fetchOutputJson parse res = some j) ∧
    (res.ok = false → fetchOutputJson parse res = none) ∧
    (jsTrim res.body = "" → fetchOutputJson parse res = none) ∧
    (parse res.body = none → fetchOutputJson parse res = none) := by
  obtain ⟨ok, body⟩ := res
  cases ok <;> simp only [fetchOutputJson] <;>
    by_cases he : jsTrim body = "" <;>
      cases h : parse body <;> simp [he, h]

/-- C2 witness: the three null-producing cases at concrete inputs. -/
theorem C2_fetch_parsed_or_null_witness :
    fetchOutputJson sampleParse ⟨false, "A"⟩ = none ∧
    fetchOutputJson sampleParse ⟨true, "  "⟩ = none ∧
    fetchOutputJson sampleParse ⟨true, "garbage"⟩ = none :=
  ⟨(C2_fetch_parsed_or_null sampleParse ⟨false, "A"⟩).2.1 rfl,
   (C2_fetch_parsed_or_null sampleParse ⟨true, "  "⟩).2.2.1 (by decide),
   (C2_fetch_parsed_or_null sampleParse ⟨true, "garbage"⟩).2.2.2 rfl⟩

/-- C8: when a query is actually submitted, the polling loop terminates within
at most 20 fetch attempts, the one-second waits sit between consecutive
attempts (one fewer wait than attempts when a result is found, one wait per
attempt when the loop exhausts), and the loading flag is false on exit whether
or not a changed result was observed. -/
theorem C8_poll_terminates (parse : String → Option Json) (st : UIState)
    (preRes postRes : FetchResponse) (pollRes : Nat → FetchResponse)
    (h : jsTrim st.inputText ≠ "") :
    (handleSubmit parse st preRes postRes pollRes).pollAttempts ≤ 20 ∧
    (handleSubmit parse st preRes postRes pollRes).state.loading = false ∧
    ((handleSubmit parse st preRes postRes pollRes).state.result = none →
      (handleSubmit parse st preRes postRes pollRes).pollWaits =
        (handleSubmit parse st preRes postRes pollRes).pollAttempts) ∧
    (∀ j, (handleSubmit parse st preRes postRes pollRes).state.result = some j →
      (handleSubmit parse st preRes postRes pollRes).pollWaits + 1 =
        (handleSubmit parse st preRes postRes pollRes).pollAttempts) := by
  unfold handleSubmit
  rw [if_neg h]
  exact ⟨pollGo_attempts_le _ _ 20 0, rfl,
    (pollGo_waits _ _ 20 0).1, (pollGo_waits _ _ 20 0).2⟩

/-- C8 witness: the loop bounds at a concrete submitted query where the first
poll already observes a changed document. -/
theorem C8_poll_terminates_witness :
    (handleSubmit sampleParse sampleState respA respA (fun _ => respB)).pollAttempts ≤ 20 ∧
    (handleSubmit sampleParse sampleState respA respA (fun _ => respB)).state.loading = false ∧
    (handleSubmit sampleParse sampleState respA respA (fun _ => respB)).pollWaits + 1 =
      (handleSubmit sampleParse sampleState respA respA (fun _ => respB)).pollAttempts := by
  obtain ⟨h1, h2, h3, h4⟩ :=
    C8_poll_terminates sampleParse sampleState respA respA (fun _ => respB) (by decide)
  exact ⟨h1, h2, h4 sampleDocB rfl⟩

/-- C9: `handleSubmit` never sends a whitespace-only query: when the input
trims to empty the handler posts nothing and the submit button is disabled,
and every query it does POST to `/query` is non-empty after trimming. -/
theorem C9_no_empty_query (parse : String → Option Json) (st : UIState)
    (preRes postRes : FetchResponse) (pollRes : Nat → FetchResponse) :
    (jsTrim st.inputText = "" →
      (handleSubmit parse st preRes postRes pollRes).posted = none ∧
      submitDisabled st.inputText = true) ∧
    (∀ q, (handleSubmit parse st preRes postRes pollRes).posted = some q →
      jsTrim q ≠ "") := by
  constructor
  · intro h
    exact ⟨by simp [handleSubmit, h], by simp [submitDisabled, h]⟩
  · intro q hq
    by_cases h : jsTrim st.inputText = ""
    · simp [handleSubmit, h] at hq
    · simp only [handleSubmit, if_neg h] at hq
      have : st.inputText = q := by simpa using hq
      rw [← this]
      exact h

/-- C9 witness: a whitespace-only input posts nothing with the button
disabled, and the concretely posted query "q" is non-empty after trimming. -/
theorem C9_no_empty_query_witness :
    (handleSubmit sampleParse ⟨"   ", none, false, false⟩ respA respA
      (fun _ => respB)).posted = none ∧
    submitDisabled "   " = true ∧
    jsTrim "q" ≠ "" := by
  obtain ⟨e1, e2⟩ :=
    (C9_no_empty_query sampleParse ⟨"   ", none, false, false⟩ respA respA
      (fun _ => respB)).1 (by decide)
  refine ⟨e1, e2, ?_⟩
  exact (C9_no_empty_query sampleParse sampleState respA respA
    (fun _ => respB)).2 "q" rfl

/-- C5: submission is a single POST of `{ query }` with no synchronous result:
the outcome of `handleSubmit` is unchanged under any response to the POST (the
code discards it), and any result the caller ends up with was obtained by a
later read of the published result document. -/
theorem C5_submit_async (parse : String → Option Json) (st : UIState)
    (preRes postRes1 postRes2 : FetchResponse) (pollRes : Nat → FetchResponse) :
    handleSubmit parse st preRes postRes1 pollRes =
      handleSubmit parse st preRes postRes2 pollRes ∧
    (jsTrim st.inputText ≠ "" →
      (handleSubmit parse st preRes postRes1 pollRes).posted = some st.inputText) ∧
    (∀ j, (handleSubmit parse st preRes postRes1 pollRes).state.result = some j →
      st.result = some j ∨
        ∃ i, i < 20 ∧ fetchOutputJson parse (pollRes i) = some j) := by
  refine ⟨rfl, ?_, ?_⟩
  · intro h
    simp [handleSubmit, if_neg h]
  · intro j hj
    by_cases h : jsTrim st.inputText = ""
    · simp only [handleSubmit, if_pos h] at hj
      exact Or.inl hj
    · simp only [handleSubmit, if_neg h] at hj
      obtain ⟨i, h1, h2, h3, h4⟩ := pollGo_found_spec _ _ 20 0 j hj
      exact Or.inr ⟨i, by omega, h3⟩

/-- C5 witness: the concrete submission outcome is identical under two
different POST responses, and the posted body is the typed query. -/
theorem C5_submit_async_witness :
    handleSubmit sampleParse sampleState respA respA (fun _ => respB) =
      handleSubmit sampleParse sampleState respA respB (fun _ => respB) ∧
    (handleSubmit sampleParse sampleState respA respA
      (fun _ => respB)).posted = some "q" := by
  have h := C5_submit_async sampleParse sampleState respA respA respB (fun _ => respB)
  exact ⟨h.1, h.2.1 (by decide)⟩

/-- C10: during one submitted `handleSubmit` run, the displayed result is only
ever assigned a fetched output whose `JSON.stringify` serialization differs
from the pre-submit snapshot (so the snapshot itself is never presented), and
if no differing output appears within the 20-try bound the result stays unset. -/
theorem C10_result_fresh (parse : String → Option Json) (st : UIState)
    (preRes postRes : FetchResponse) (pollRes : Nat → FetchResponse)
    (h : jsTrim st.inputText ≠ "") :
    (∀ j, (handleSubmit parse st preRes postRes pollRes).state.result = some j →
      stringify j ≠ stringifyOpt (fetchOutputJson parse preRes) ∧
      some j ≠ fetchOutputJson parse preRes ∧
      ∃ i, i < 20 ∧ fetchOutputJson parse (pollRes i) = some j) ∧
    ((∀ i, i < 20 →
        outputChanged (fetchOutputJson parse preRes)
          (fetchOutputJson parse (pollRes i)) = false) →
      (handleSubmit parse st preRes postRes pollRes).state.result = none) := by
  constructor
  · intro j hj
    have hj' : (pollGo (fetchOutputJson parse preRes)
        (fun i => fetchOutputJson parse (pollRes i)) 0 20).found = some j := by
      have := hj
      unfold handleSubmit at this
      rw [if_neg h] at this
      exact this
    obtain ⟨i, h1, h2, h3, h4⟩ := pollGo_found_spec _ _ 20 0 j hj'
    simp only [h3] at h4
    have hne : stringify j ≠ stringifyOpt (fetchOutputJson parse preRes) := by
      have := (Bool.and_eq_true _ _).mp h4
      have hb := this.2
      intro hcontra
      rw [show stringifyOpt (some j) = stringify j from rfl] at hb
      rw [hcontra] at hb
      simp at hb
    refine ⟨hne, ?_, ⟨i, by omega, h3⟩⟩
    intro hcontra
    apply hne
    rw [← hcontra]
    rfl
  · intro hall
    unfold handleSubmit
    rw [if_neg h]
    show (pollGo _ _ 0 20).found = none
    rw [pollGo_unchanged _ _ 20 0 (fun i h1 h2 => hall i (by omega))]

/-- C10 witness: at the concrete scenario, the presented document differs in
serialization from the pre-submit snapshot; and when every poll re-reads the
unchanged snapshot content, the result stays unset. -/
theorem C10_result_fresh_witness :
    stringify sampleDocB ≠ stringifyOpt (fetchOutputJson sampleParse respA) ∧
    (handleSubmit sampleParse sampleState respA respA
      (fun _ => respA)).state.result = none := by
  constructor
  · exact ((C10_result_fresh sampleParse sampleState respA respA
      (fun _ => respB) (by decide)).1 sampleDocB rfl).1
  · exact (C10_result_fresh sampleParse sampleState respA respA
      (fun _ => respA) (by decide)).2 (fun i _ => by decide)

/-- C1 counterexample: the consumption boundary relies solely on whole-content
serialization comparison. With a freshly published result document whose
serialization coincides with the pre-submit snapshot (as when two distinct
queries produce identical output), every one of the 20 polls reads the fresh
document yet the loop never detects it: the change check is false and the loop
exhausts all 20 attempts with no result, a false negative no freshness token
prevents. -/
theorem C1_counterexample :
    pollLoop (some sampleDocA) (fun _ => some sampleDocA) =
      ⟨none, 20, 20⟩ ∧
    outputChanged (some sampleDocA) (some sampleDocA) = false ∧
    truthy (some sampleDocA) = true := by
  refine ⟨?_, by decide, rfl⟩
  exact pollGo_unchanged _ _ 20 0 (fun i _ _ => by decide)

/-- C1 amended: publication carries no freshness token consulted by the
consumer; new-result detection is solely whole-content `JSON.stringify`
comparison against the pre-submit snapshot, so whenever every polled read
serializes identically to the snapshot the loop finds nothing and exhausts its
20 attempts, even if a fresh result was published. -/
theorem C1_content_comparison_only (initialOutput : Option Json)
    (fetches : Nat → Option Json)
    (h : ∀ i, i < 20 → stringifyOpt (fetches i) = stringifyOpt initialOutput) :
    pollLoop initialOutput fetches = ⟨none, 20, 20⟩ := by
  apply pollGo_unchanged
  intro i h1 h2
  simp [outputChanged, h i (by omega)]

/-- C1 witness: the amended theorem at the concrete identical-content
scenario. -/
theorem C1_content_comparison_only_witness :
    pollLoop (some sampleDocB) (fun _ => some sampleDocB) = ⟨none, 20, 20⟩ :=
  C1_content_comparison_only (some sampleDocB) (fun _ => some sampleDocB)
    (fun i _ => rfl)

/-! ## The published result document (`lib/api.ts`) and the orchestrator -/

/-- Status is the closed union type of the `status` field of
`LegalAnalysisResult` in `lib/api.ts`: 'success' | 'error' | 'no_matches'. -/
inductive Status where
  | success : Status
  | error : Status
  | no_matches : Status
deriving DecidableEq

/-- Status.toText gives the string stored in the `status` field of the
published JSON document. -/
def Status.toText : Status → String
  | .success => "success"
  | .error => "error"
  | .no_matches => "no_matches"

/-- LegalAnalysisResult embeds the interface of the same name in `lib/api.ts`:
the shape of every published result document. The `analysis` mapping is kept
as an association list in insertion order; `error` is the optional field
`error?: string`. -/
structure LegalAnalysisResult where
  timestamp : String
  query : String
  key_terms : List String
  legal_context : String
  analysis : List (String × String)
  status : Status
  error : Option String
deriving DecidableEq

/-- Substring occurrence test over character lists. -/
def listHasSub (needle : List Char) : List Char → Bool
  | [] => needle.isEmpty
  | c :: cs => needle.isPrefixOf (c :: cs) || listHasSub needle cs

/-- Does `hay` contain `needle` as a substring. -/
def strContains (hay needle : String) : Bool :=
  listHasSub needle.toList hay.toList

/-- Does `hay` start with `pre` (over character lists, so it evaluates by
kernel reduction). -/
def strStarts (hay pre : String) : Bool :=
  pre.toList.isPrefixOf hay.toList

/-- Does `hay` end with `suf`. -/
def strEnds (hay suf : String) : Bool :=
  suf.toList.reverse.isPrefixOf hay.toList.reverse

/-- Modelled from the spec: the hardcoded disallowed-term filter of
`save_to_output_json` in `backend/main.py` (that file is absent from the
available sources) — a key containing the literal word "Definition" is always
disallowed. -/
def hasDefinitionKey (k : String) : Bool :=
  strContains k "Definition"

/-- Modelled from the spec: the closed citation-key grammar of §6 (accepted
forms `S <number>[(<sub>)...] PDPA`, `Ss <number> and (<number>) PDPA`,
`Reg <number> PDPR`, `para <ref> of <Schedule-name> PDPA`), approximated by
the accepted head word and the statute tail; `backend/main.py`, which
implements the check, is absent from the available sources. -/
def validCitationKey (k : String) : Bool :=
  (strStarts k "S " && strEnds k " PDPA") ||
  (strStarts k "Ss " && strEnds k " PDPA") ||
  (strStarts k "Reg " && strEnds k " PDPR") ||
  (strStarts k "para " && strContains k " of " && strEnds k " PDPA")

/-- Modelled from the spec: a generated key is kept only when it passes the
citation grammar and does not contain "Definition" (§4.3). -/
def keepKey (k : String) : Bool :=
  validCitationKey k && !(hasDefinitionKey k)

/-- Modelled from the spec: the output filtering step — keys failing grammar
validation or matching the disallowed-term filter are dropped, not errored
on. -/
def filterAnalysis (entries : List (String × String)) : List (String × String) :=
  entries.filter (fun e => keepKey e.1)

/-- GenOutcome is the observable behavior of the generative-backend call (an
external capability): parsed key/value entries, unparseable text, or a
timeout. -/
inductive GenOutcome where
  | parsed (entries : List (String × String)) : GenOutcome
  | malformed : GenOutcome
  | timeout : GenOutcome
deriving DecidableEq

/-- Modelled from the spec: the Analysis Orchestrator of `backend/main.py`
(absent from the available sources), following §4.3 and §7: an empty context
short-circuits to no_matches; a malformed generation or a backend timeout is
captured as an error document with a non-empty machine-readable reason and an
empty analysis; otherwise the generated keys are validated and filtered, an
empty filtered result downgrades to no_matches, and a non-empty one is
published as success. The function is total: every request yields a document. -/
def processQuery (ts query : String) (keyTerms : List String)
    (context : String) (gen : GenOutcome) : LegalAnalysisResult :=
  if context = "" then
    ⟨ts, query, keyTerms, context, [], .no_matches, none⟩
  else
    match gen with
    | .malformed =>
        ⟨ts, query, keyTerms, context, [], .error, some "malformed generation output"⟩
    | .timeout =>
        ⟨ts, query, keyTerms, context, [], .error, some "backend-timeout"⟩
    | .parsed entries =>
        let filtered := filterAnalysis entries
        if filtered = [] then
          ⟨ts, query, keyTerms, context, [], .no_matches, none⟩
        else
          ⟨ts, query, keyTerms, context, filtered, .success, none⟩

/-- C3: every published result document carries a status that serializes to
exactly one of "success", "error" or "no_matches", and a failing generative
backend is captured into an error document rather than escaping the
request-processing unit. -/
theorem C3_status_always_present (ts query : String) (keyTerms : List String)
    (context : String) (gen : GenOutcome) :
    ((processQuery ts query keyTerms context gen).status.toText = "success" ∨
     (processQuery ts query keyTerms context gen).status.toText = "error" ∨
     (processQuery ts query keyTerms context gen).status.toText = "no_matches") ∧
    (context ≠ "" → (gen = .malformed ∨ gen = .timeout) →
      (processQuery ts query keyTerms context gen).status = .error) := by
  constructor
  · cases (processQuery ts query keyTerms context gen).status <;>
      simp [Status.toText]
  · intro hc hg
    rcases hg with h | h <;> subst h <;> simp [processQuery, hc]

/-- C3 witness: a malformed generation at a concrete request is captured as an
error document. -/
theorem C3_status_always_present_witness :
    ("ctx" : String) ≠ "" ∧
    (processQuery "t" "q" [] "ctx" .malformed).status = Status.error :=
  ⟨by decide,
   (C3_status_always_present "t" "q" [] "ctx" .malformed).2 (by decide)
     (Or.inl rfl)⟩

/-- C4: in every published result document the error field is present only
when the status is error, and an error document carries a non-empty message
and an empty analysis mapping. -/
theorem C4_error_field_discipline (ts query : String) (keyTerms : List String)
    (context : String) (gen : GenOutcome) :
    ((processQuery ts query keyTerms context gen).error ≠ none →
      (processQuery ts query keyTerms context gen).status = Status.error) ∧
    ((processQuery ts query keyTerms context gen).status = Status.error →
      ∃ m, (processQuery ts query keyTerms context gen).error = some m ∧
        m ≠ "" ∧ (processQuery ts query keyTerms context gen).analysis = []) := by
  unfold processQuery
  by_cases hc : context = ""
  · simp [hc]
  · cases gen with
    | parsed entries =>
      by_cases hf : filterAnalysis entries = [] <;> simp [hc, hf]
    | malformed => simp [hc]
    | timeout => simp [hc]

/-- C4 witness: the error document produced by a concrete malformed generation
has a present error field (hence error status, by the theorem) and an empty
analysis. -/
theorem C4_error_field_discipline_witness :
    (processQuery "t" "q" [] "ctx" GenOutcome.malformed).status = Status.error ∧
    (processQuery "t" "q" [] "ctx" GenOutcome.malformed).analysis = [] := by
  obtain ⟨m, hm, hne, ha⟩ :=
    (C4_error_field_discipline "t" "q" [] "ctx" .malformed).2 rfl
  refine ⟨(C4_error_field_discipline "t" "q" [] "ctx" .malformed).1 ?_, ha⟩
  rw [hm]
  simp

/-- C7: no key of a success result's analysis mapping contains the substring
"Definition" (and every kept key passed the citation grammar); a key
containing "Definition" is always rejected regardless of otherwise-valid
grammar. -/
theorem C7_no_definition_keys (ts query : String) (keyTerms : List String)
    (context : String) (gen : GenOutcome) :
    ((processQuery ts query keyTerms context gen).status = Status.success →
      ∀ e ∈ (processQuery ts query keyTerms context gen).analysis,
        hasDefinitionKey e.1 = false ∧ validCitationKey e.1 = true) ∧
    (∀ k, hasDefinitionKey k = true → keepKey k = false) := by
  constructor
  · intro hs e he
    by_cases hc : context = ""
    · simp [processQuery, hc] at hs
    · cases gen with
      | parsed entries =>
        by_cases hf : filterAnalysis entries = []
        · simp [processQuery, hc, hf] at hs
        · have hana : (processQuery ts query keyTerms context
              (.parsed entries)).analysis = filterAnalysis entries := by
            simp [processQuery, hc, hf]
          rw [hana] at he
          have hk : keepKey e.1 = true := by
            unfold filterAnalysis at he
            exact (List.mem_filter.mp he).2
          have hand : validCitationKey e.1 = true ∧ hasDefinitionKey e.1 = false := by
            simpa [keepKey] using hk
          exact ⟨hand.2, hand.1⟩
      | malformed => simp [processQuery, hc] at hs
      | timeout => simp [processQuery, hc] at hs
  · intro k hk
    simp [keepKey, hk]

/-- C7 witness: a concrete success result keeps only the grammatical
non-Definition key, and a grammatically shaped key containing "Definition" is
rejected by the key filter. -/
theorem C7_no_definition_keys_witness :
    hasDefinitionKey "S 21(1) PDPA" = false ∧
    keepKey "S 2 Definition PDPA" = false := by
  refine ⟨?_, ?_⟩
  · exact ((C7_no_definition_keys "t" "q" [] "ctx"
      (.parsed [("S 21(1) PDPA", "why it applies"),
                ("Definition of organisation", "context only")])).1 rfl
      ("S 21(1) PDPA", "why it applies") (by decide)).1
  · exact (C7_no_definition_keys "t" "q" [] "ctx" .malformed).2
      "S 2 Definition PDPA" (by decide)

/-! ## The term extractor (`backend/term.py`, modelled from the spec) -/

/-- ExtractedTerm is a (term, relevance score) pair (spec §3). -/
structure ExtractedTerm where
  term : String
  score : Nat
deriving DecidableEq

/-- Candidate is an extraction candidate before merging: its normalized text,
its combined relevance score, and its first-occurrence position in the query
(positions break score ties, earlier wins). -/
structure Candidate where
  term : String
  score : Nat
  pos : Nat
deriving DecidableEq

/-- Punctuation characters stripped by normalization. -/
def punctChars : List Char :=
  ['.', ',', ';', ':', '!', '?', '\'', '\"', '(', ')', '[', ']', '-', '_', '/']

/-- Modelled from the spec: term normalization of §4.1 (`backend/term.py` is
absent from the available sources): case-fold and strip punctuation. -/
def normalizeTerm (s : String) : String :=
  String.mk ((s.toList.filter (fun c => !punctChars.contains c)).map Char.toLower)

/-- Maximum score over all candidates in `l` whose term equals `t`, floored at
`s`. -/
def maxScoreOf (t : String) (s : Nat) : List Candidate → Nat
  | [] => s
  | d :: ds =>
    if d.term == t then maxScoreOf t (max s d.score) ds else maxScoreOf t s ds

/-- Modelled from the spec: merging of §4.1 — candidates that normalize
identically are merged, keeping the maximum score among the merged variants
and the first occurrence position; first-occurrence order is preserved.
`seen` accumulates terms already emitted, `all` is the full candidate list the
maximum is taken over. -/
def dedupeGo (seen : List String) (all : List Candidate) :
    List Candidate → List Candidate
  | [] => []
  | c :: cs =>
    if seen.contains c.term then dedupeGo seen all cs
    else ⟨c.term, maxScoreOf c.term 0 all, c.pos⟩ ::
      dedupeGo (c.term :: seen) all cs

/-- Merging pass over a candidate list. -/
def dedupeCands (l : List Candidate) : List Candidate :=
  dedupeGo [] l l

/-- Modelled from the spec: the ordering of §4.1 — strictly higher score
first; equal scores keep the earlier first-occurrence position first. -/
def candBefore (a b : Candidate) : Bool :=
  Nat.blt b.score a.score || (a.score == b.score && Nat.ble a.pos b.pos)

/-- Insertion step of the score-descending sort. -/
def insertCand (a : Candidate) : List Candidate → List Candidate
  | [] => [a]
  | b :: bs => if candBefore a b then a :: b :: bs else b :: insertCand a bs

/-- Insertion sort by `candBefore` (score-descending, position tie-break). -/
def sortCands : List Candidate → List Candidate
  | [] => []
  | c :: cs => insertCand c (sortCands cs)

/-- Modelled from the spec: the candidate pool of §4.1 — entity-model spans
and lexical matches, each already carrying its combined relevance score and
its first-occurrence position, are normalized, and candidates whose
normalization is empty are discarded. Failure of the entity model degrades to
`modelCands = []`, leaving lexical-only extraction. -/
def recognizedCands (modelCands lexicalCands : List (String × Nat × Nat)) :
    List Candidate :=
  ((modelCands ++ lexicalCands).map
    (fun r => Candidate.mk (normalizeTerm r.1) r.2.1 r.2.2)).filter
    (fun c => !(c.term == ""))

/-- Modelled from the spec: `extract_terms` of `backend/term.py` (absent from
the available sources), §4.1: the recognized candidates are merged by
normalized form, ordered by non-increasing score (ties: earlier first
occurrence wins) and truncated to the top 15. -/
def extract_terms (modelCands lexicalCands : List (String × Nat × Nat)) :
    List ExtractedTerm :=
  ((sortCands (dedupeCands (recognizedCands modelCands lexicalCands))).take 15).map
    (fun c => ⟨c.term, c.score⟩)

/-- A higher-ranked candidate scores at least as much. -/
theorem score_le_of_candBefore {a b : Candidate} (h : candBefore a b = true) :
    b.score ≤ a.score := by
  unfold candBefore at h
  simp only [Bool.or_eq_true, Bool.and_eq_true, Nat.blt_eq, beq_iff_eq,
    Nat.ble_eq] at h
  omega

/-- A lower-ranked candidate scores at most as much. -/
theorem score_ge_of_not_candBefore {a b : Candidate} (h : candBefore a b = false) :
    a.score ≤ b.score := by
  have h' : ¬ (candBefore a b = true) := by simp [h]
  unfold candBefore at h'
  simp only [Bool.or_eq_true, Bool.and_eq_true, Nat.blt_eq, beq_iff_eq,
    Nat.ble_eq, not_or] at h'
  have h1 := h'.1
  omega

/-- Membership through one insertion step. -/
theorem mem_insertCand (a x : Candidate) :
    ∀ l : List Candidate, x ∈ insertCand a l → x = a ∨ x ∈ l := by
  intro l
  induction l with
  | nil => intro h; simpa [insertCand] using h
  | cons b bs ih =>
    intro h
    unfold insertCand at h
    split at h
    · exact (List.mem_cons.mp h).imp id id
    · rcases List.mem_cons.mp h with h1 | h1
      · exact Or.inr (h1 ▸ List.mem_cons_self b bs)
      · rcases ih h1 with h2 | h2
        · exact Or.inl h2
        · exact Or.inr (List.mem_cons_of_mem b h2)

/-- Insertion grows the length by one. -/
theorem length_insertCand (a : Candidate) :
    ∀ l : List Candidate, (insertCand a l).length = l.length + 1 := by
  intro l
  induction l with
  | nil => rfl
  | cons b bs ih =>
    unfold insertCand
    split
    · rfl
    · simp [ih]

/-- Insertion preserves the non-increasing score invariant. -/
theorem pairwise_insertCand (a : Candidate) :
    ∀ l : List Candidate,
      l.Pairwise (fun x y => y.score ≤ x.score) →
      (insertCand a l).Pairwise (fun x y => y.score ≤ x.score) := by
  intro l
  induction l with
  | nil => intro _; simp [insertCand]
  | cons b bs ih =>
    intro hp
    obtain ⟨hb, hbs⟩ := List.pairwise_cons.mp hp
    unfold insertCand
    split
    · rename_i hc
      refine List.pairwise_cons.mpr ⟨?_, hp⟩
      intro y hy
      rcases List.mem_cons.mp hy with h1 | h1
      · exact h1 ▸ score_le_of_candBefore hc
      · exact Nat.le_trans (hb y h1) (score_le_of_candBefore hc)
    · rename_i hc
      refine List.pairwise_cons.mpr ⟨?_, ih hbs⟩
      intro y hy
      rcases mem_insertCand a y bs hy with h1 | h1
      · exact h1 ▸ score_ge_of_not_candBefore (Bool.eq_false_iff.mpr hc)
      · exact hb y h1

/-- The sort output is in non-increasing score order. -/
theorem pairwise_sortCands :
    ∀ l : List Candidate,
      (sortCands l).Pairwise (fun x y => y.score ≤ x.score) := by
  intro l
  induction l with
  | nil => simp [sortCands]
  | cons c cs ih => exact pairwise_insertCand c _ ih

/-- Sorting permutes: members of the output are members of the input. -/
theorem mem_sortCands (x : Candidate) :
    ∀ l : List Candidate, x ∈ sortCands l → x ∈ l := by
  intro l
  induction l with
  | nil => intro h; simp [sortCands] at h
  | cons c cs ih =>
    intro h
    rcases mem_insertCand c x (sortCands cs) h with h1 | h1
    · exact h1 ▸ List.mem_cons_self c cs
    · exact List.mem_cons_of_mem c (ih h1)

/-- Sorting preserves length. -/
theorem length_sortCands : ∀ l : List Candidate,
    (sortCands l).length = l.length := by
  intro l
  induction l with
  | nil => rfl
  | cons c cs ih => simp [sortCands, length_insertCand, ih]

/-- Every merged candidate takes its term from some input candidate. -/
theorem mem_dedupeGo (x : Candidate) (all : List Candidate) :
    ∀ (l : List Candidate) (seen : List String),
      x ∈ dedupeGo seen all l → ∃ c, c ∈ l ∧ x.term = c.term := by
  intro l
  induction l with
  | nil => intro seen h; simp [dedupeGo] at h
  | cons c cs ih =>
    intro seen h
    unfold dedupeGo at h
    split at h
    · obtain ⟨d, hd, ht⟩ := ih seen h
      exact ⟨d, List.mem_cons_of_mem c hd, ht⟩
    · rcases List.mem_cons.mp h with h1 | h1
      · exact ⟨c, List.mem_cons_self c cs, by rw [h1]⟩
      · obtain ⟨d, hd, ht⟩ := ih _ h1
        exact ⟨d, List.mem_cons_of_mem c hd, ht⟩

/-- Recognized candidates have non-empty normalized terms. -/
theorem recognizedCands_term_ne (modelCands lexicalCands : List (String × Nat × Nat))
    (c : Candidate) (hc : c ∈ recognizedCands modelCands lexicalCands) :
    c.term ≠ "" := by
  unfold recognizedCands at hc
  have h2 := (List.mem_filter.mp hc).2
  simpa using h2

/-- A non-empty recognized candidate pool yields a non-empty extraction. -/
theorem extract_terms_ne_nil (modelCands lexicalCands : List (String × Nat × Nat))
    (h : recognizedCands modelCands lexicalCands ≠ []) :
    extract_terms modelCands lexicalCands ≠ [] := by
  unfold extract_terms
  apply List.ne_nil_of_length_pos
  rw [List.length_map, List.length_take, length_sortCands]
  have hd : 0 < (dedupeCands (recognizedCands modelCands lexicalCands)).length := by
    rcases hr : recognizedCands modelCands lexicalCands with _ | ⟨c, cs⟩
    · exact absurd hr h
    · rw [dedupeCands]
      unfold dedupeGo
      simp
  omega

/-- C6: for every candidate pool, `extract_terms` returns at most 15 terms,
every returned term is non-empty after normalization, the terms come in
non-increasing relevance-score order, and the result is empty only when the
query yielded no recognizable (normalizing to non-empty) candidates. -/
theorem C6_extract_terms_contract
    (modelCands lexicalCands : List (String × Nat × Nat)) :
    (extract_terms modelCands lexicalCands).length ≤ 15 ∧
    (∀ t ∈ extract_terms modelCands lexicalCands, t.term ≠ "") ∧
    (extract_terms modelCands lexicalCands).Pairwise
      (fun a b => b.score ≤ a.score) ∧
    (recognizedCands modelCands lexicalCands ≠ [] →
      extract_terms modelCands lexicalCands ≠ []) := by
  refine ⟨?_, ?_, ?_, extract_terms_ne_nil modelCands lexicalCands⟩
  · unfold extract_terms
    rw [List.length_map, List.length_take]
    omega
  · intro t ht
    unfold extract_terms at ht
    obtain ⟨c, hc, hct⟩ := List.mem_map.mp ht
    have hc2 := (List.take_sublist 15 _).mem hc
    have hc3 := mem_sortCands c _ hc2
    obtain ⟨d, hd, hterm⟩ :=
      mem_dedupeGo c (recognizedCands modelCands lexicalCands) _ [] hc3
    have hdne := recognizedCands_term_ne modelCands lexicalCands d hd
    rw [← hct]
    simpa [hterm] using hdne
  · unfold extract_terms
    rw [List.pairwise_map]
    have hp := (pairwise_sortCands
      (dedupeCands (recognizedCands modelCands lexicalCands))).sublist
      (List.take_sublist 15 _)
    exact hp

/-- C6 witness: a concrete extraction where two variants merge to one
normalized term; the result is non-empty and the merged term is non-empty. -/
theorem C6_extract_terms_contract_witness :
    extract_terms [("Personal Data!", 5, 0)]
      [("access", 3, 1), ("Personal Data.", 7, 2)] ≠ [] ∧
    (ExtractedTerm.mk "personal data" 7).term ≠ "" := by
  have h := C6_extract_terms_contract [("Personal Data!", 5, 0)]
    [("access", 3, 1), ("Personal Data.", 7, 2)]
  refine ⟨h.2.2.2 (by decide), ?_⟩
  exact h.2.1 ⟨"personal data", 7⟩ (by decide)
